import Mathlib

/-!
Shallow embedding of the witness-calculator core of `circom-compat-wasm3`
(`src/witness/witness_calculator.rs`, `src/witness/circom.rs`, `src/witness/mod.rs`).

Conventions used throughout:
* Rust `BigInt` is modelled as `Int`; its `/` and `%` truncate towards zero, which is
  `Int.tdiv` / `Int.tmod`.
* Rust `u32` words are modelled as `Nat` (all values produced are `< 2^32`).
* A Rust panic (`unwrap` on `None`, `usize` underflow followed by an out-of-bounds index)
  is modelled as `none` (for pure code) or as the error `HostErr.panicErr` (in the driver).
* The wasm3 guest module is modelled as an oracle: a structure of functions from a guest
  state to a new state together with either a return value or a trap.
* The protocol driver additionally records the sequence of guest calls it performs as a
  list of `Event`s, so that ordering and counting properties can be stated.
-/

namespace CircomWasm3

/-- Decidable equality for `Except`, so that concrete driver runs can be checked by
`decide`. -/
instance {ε α : Type} [DecidableEq ε] [DecidableEq α] : DecidableEq (Except ε α) :=
  fun x y =>
  match x, y with
  | Except.ok a, Except.ok b =>
    if h : a = b then isTrue (by rw [h]) else isFalse (by intro hc; cases hc; exact h rfl)
  | Except.ok _, Except.error _ => isFalse (by intro hc; cases hc)
  | Except.error _, Except.ok _ => isFalse (by intro hc; cases hc)
  | Except.error e, Except.error f =>
    if h : e = f then isTrue (by rw [h]) else isFalse (by intro hc; cases hc; exact h rfl)

/-- The limb radix `0x100000000u64 = 2^32` used by the codec. -/
def radix : Int := 4294967296

/-- `from_array32` (`witness_calculator.rs` lines 24–31): big-endian accumulation
`res = res * radix + val` over the limbs, starting from `BigInt::zero()`. -/
def from_array32 (arr : List Nat) : Int :=
  arr.foldl (fun res (val : Nat) => res * radix + (val : Int)) 0

/-- `BigInt::to_u32` from the `num` crate: `some` exactly on values in `[0, 2^32)`. -/
def to_u32 (x : Int) : Option Nat :=
  if 0 ≤ x ∧ x < radix then some x.toNat else none

/-- The `while !rem.is_zero()` loop of `to_array32` (`witness_calculator.rs` lines 37–42),
recursing on the counter `c` (initially `size`).  `none` models a panic: either the
`c -= 1` `usize` underflow when `c = 0` (in release mode the wrapped index makes `res[c]`
go out of bounds), or `(&rem % &radix).to_u32().unwrap()` failing on a negative
remainder.  Rust `BigInt` division truncates towards zero, hence `tdiv`/`tmod`. -/
def to_array32Loop (rem : Int) (c : Nat) (res : List Nat) : Option (List Nat) :=
  if rem = 0 then some res
  else
    match c with
    | 0 => none
    | c' + 1 =>
      match to_u32 (rem.tmod radix) with
      | none => none
      | some v => to_array32Loop (rem.tdiv radix) c' (res.set c' v)

/-- `to_array32` (`witness_calculator.rs` lines 33–45): `res = vec![0; size]`, then the
limb-filling loop. -/
def to_array32 (s : Int) (size : Nat) : Option (List Nat) :=
  to_array32Loop s size (List.replicate size 0)

/-- The big-endian `c`-limb array of a natural number (most-significant limb first);
pure description of what the `to_array32` loop writes into the vector. -/
def limbsBE : Nat → Nat → List Nat
  | _, 0 => []
  | n, c + 1 => limbsBE (n / 4294967296) c ++ [n % 4294967296]

/-- One update step of the external `fnv` crate's `FnvHasher` (64-bit FNV-1a:
`hash = (hash XOR byte) * 0x100000001b3`, wrapping on `u64`). -/
def fnvUpdate (h b : Nat) : Nat :=
  ((h ^^^ b) * 0x100000001b3) % 2 ^ 64

/-- `FnvHasher::write`: fold the update step over the input bytes. -/
def fnvHasherWrite (h : Nat) (bytes : List Nat) : Nat :=
  bytes.foldl fnvUpdate h

/-- The default `FnvHasher` seed (the 64-bit FNV offset basis). -/
def fnvOffsetBasis : Nat := 0xcbf29ce484222325

/-- `fnv` (`mod.rs` lines 12–18): hash the UTF-8 bytes of the signal name with the
default `FnvHasher`, then return `((h >> 32) as u32, h as u32)`.  Names are modelled by
their UTF-8 byte sequences. -/
def fnv (inp : List Nat) : Nat × Nat :=
  ((fnvHasherWrite fnvOffsetBasis inp >>> 32) % 2 ^ 32,
    fnvHasherWrite fnvOffsetBasis inp % 2 ^ 32)

/-- Modelled from the spec: "a 64-bit non-cryptographic hash (FNV-1a, 64-bit variant,
default seed) over the UTF-8 bytes of `name`" — the 64-bit FNV-1a hash, written as a
stand-alone recursion for comparison with the implementation-side `fnvHasherWrite`. -/
def spec_fnv1a64Go : Nat → List Nat → Nat
  | h, [] => h
  | h, b :: rest => spec_fnv1a64Go (((h ^^^ b) * 0x100000001b3) % 2 ^ 64) rest

/-- Modelled from the spec: the 64-bit FNV-1a hash with the default offset basis. -/
def spec_fnv1a64 (bytes : List Nat) : Nat :=
  spec_fnv1a64Go 0xcbf29ce484222325 bytes

/-- The per-element conversion of `calculate_witness_element`
(`witness_calculator.rs` lines 163–173): a negative raw value `w` becomes
`modulus - |w|` (a `BigUint` subtraction, which panics on underflow — modelled as
`none`), any other value passes through unchanged; `ScalarField::from` then reduces the
non-negative representative modulo the prime `p`. -/
def normalizeWitnessElement (p : Nat) (w : Int) : Option Nat :=
  if w < 0 then
    if w.natAbs ≤ p then some ((p - w.natAbs) % p) else none
  else
    some (w.toNat % p)

/-- A guest trap (the wasm3 call returned an error). -/
inductive GuestErr : Type
  | trap : GuestErr
deriving DecidableEq

/-- The only failure mode of the host-side code in this backend: a Rust panic
(`expect`/`unwrap` on a failed call, or an encoder panic).  The `?` operators in
`witness_calculator.rs` never see an `Err`, because every trait implementation in
`circom.rs` either panics or swallows the failure. -/
inductive HostErr : Type
  | panicErr : HostErr
deriving DecidableEq

/-- One guest call performed by the driver, as visible at the host/guest boundary.
Getter events record the value the guest returned. -/
inductive Event : Type
  | init (flag : Nat)
  | getFieldNumLen32 (n : Nat)
  | writeShared (j v : Nat)
  | setInputSignal (msb lsb pos : Nat)
  | getWitnessSize (n : Nat)
  | getWitness (i : Nat)
  | readShared (j v : Nat)
deriving DecidableEq

/-- The wasm3 guest module, as an oracle over an abstract guest state `σ`: each exported
function maps a state to a new state together with either a return value or a trap. -/
structure Guest (σ : Type) where
  init : Nat → σ → σ × Except GuestErr Unit
  getFieldNumLen32 : σ → σ × Except GuestErr Nat
  writeShared : Nat → Nat → σ → σ × Except GuestErr Unit
  setInputSignal : Nat → Nat → Nat → σ → σ × Except GuestErr Unit
  getWitnessSize : σ → σ × Except GuestErr Nat
  getWitness : Nat → σ → σ × Except GuestErr Unit
  readShared : Nat → σ → σ × Except GuestErr Nat

namespace Wasm

variable {σ : Type}

/-- `CircomBase::init` for `Wasm` (`circom.rs` lines 78–85): call the guest's `init`
with `sanity_check as i32` and `unwrap` the result (a trap panics the host). -/
def init (g : Guest σ) (sanity_check : Bool) (s : σ) :
    List Event × σ × Except HostErr Unit :=
  match g.init (if sanity_check then 1 else 0) s with
  | (s', Except.ok _) => ([Event.init (if sanity_check then 1 else 0)], s', Except.ok ())
  | (s', Except.error _) => ([], s', Except.error HostErr.panicErr)

/-- `Circom2::get_field_num_len32` (`circom.rs` lines 23–25, via `get_u32`, which
`unwrap`s the call). -/
def get_field_num_len32 (g : Guest σ) (s : σ) :
    List Event × σ × Except HostErr Nat :=
  match g.getFieldNumLen32 s with
  | (s', Except.ok n) => ([Event.getFieldNumLen32 n], s', Except.ok n)
  | (s', Except.error _) => ([], s', Except.error HostErr.panicErr)

/-- `Circom2::write_shared_rw_memory` (`circom.rs` lines 45–52): `unwrap`s the call. -/
def write_shared_rw_memory (g : Guest σ) (j v : Nat) (s : σ) :
    List Event × σ × Except HostErr Unit :=
  match g.writeShared j v s with
  | (s', Except.ok _) => ([Event.writeShared j v], s', Except.ok ())
  | (s', Except.error _) => ([], s', Except.error HostErr.panicErr)

/-- `Circom2::set_input_signal` (`circom.rs` lines 54–61): the call's result is
discarded (`let _ = func.call(...)`), so a guest trap here is silently swallowed and the
wrapper always returns `Ok(())`. -/
def set_input_signal (g : Guest σ) (msb lsb pos : Nat) (s : σ) :
    List Event × σ × Except HostErr Unit :=
  ([Event.setInputSignal msb lsb pos], (g.setInputSignal msb lsb pos s).1, Except.ok ())

/-- `Circom2::get_witness_size` (`circom.rs` lines 72–74, via `get_u32`). -/
def get_witness_size (g : Guest σ) (s : σ) :
    List Event × σ × Except HostErr Nat :=
  match g.getWitnessSize s with
  | (s', Except.ok n) => ([Event.getWitnessSize n], s', Except.ok n)
  | (s', Except.error _) => ([], s', Except.error HostErr.panicErr)

/-- `Circom2::get_witness` (`circom.rs` lines 63–70): `unwrap`s the call. -/
def get_witness (g : Guest σ) (i : Nat) (s : σ) :
    List Event × σ × Except HostErr Unit :=
  match g.getWitness i s with
  | (s', Except.ok _) => ([Event.getWitness i], s', Except.ok ())
  | (s', Except.error _) => ([], s', Except.error HostErr.panicErr)

/-- `Circom2::read_shared_rw_memory` (`circom.rs` lines 36–43): `unwrap`s the call. -/
def read_shared_rw_memory (g : Guest σ) (j : Nat) (s : σ) :
    List Event × σ × Except HostErr Nat :=
  match g.readShared j s with
  | (s', Except.ok v) => ([Event.readShared j v], s', Except.ok v)
  | (s', Except.error _) => ([], s', Except.error HostErr.panicErr)

end Wasm

variable {σ : Type}

/-- The inner `for j in 0..n32` write loop of `calculate_witness_circom2`
(`witness_calculator.rs` lines 126–129): write word `f_arr[n32 - 1 - j]` to shared-memory
index `j`.  `js` is the remaining iteration list (`List.range n32` at the top call);
every index `n32 - 1 - j` it uses is in range because `f_arr` has length `n32`. -/
def writeLimbs (g : Guest σ) (n32 : Nat) (f_arr : List Nat) (js : List Nat) (s : σ) :
    List Event × σ × Except HostErr Unit :=
  match js with
  | [] => ([], s, Except.ok ())
  | j :: rest =>
    match Wasm.write_shared_rw_memory g j (f_arr.getD (n32 - 1 - j) 0) s with
    | (tr, s', Except.ok _) =>
      match writeLimbs g n32 f_arr rest s' with
      | (tr', s'', r) => (tr ++ tr', s'', r)
    | (tr, s', Except.error e) => (tr, s', Except.error e)

/-- The body of the `for (i, value) in values` loop for one value
(`witness_calculator.rs` lines 124–131): encode the value (`to_array32`; `none` models the
encoder panic), write the `n32` words, then `set_input_signal`. -/
def setOneInput (g : Guest σ) (n32 msb lsb : Nat) (value : Int) (pos : Nat) (s : σ) :
    List Event × σ × Except HostErr Unit :=
  match to_array32 value n32 with
  | none => ([], s, Except.error HostErr.panicErr)
  | some f_arr =>
    match writeLimbs g n32 f_arr (List.range n32) s with
    | (tr, s', Except.ok _) =>
      match Wasm.set_input_signal g msb lsb pos s' with
      | (tr2, s'', r) => (tr ++ tr2, s'', r)
    | (tr, s', Except.error e) => (tr, s', Except.error e)

/-- The `for (i, value) in values.into_iter().enumerate()` loop
(`witness_calculator.rs` lines 124–131); `pos` is the running enumeration index. -/
def setInputValues (g : Guest σ) (n32 msb lsb : Nat) (values : List Int) (pos : Nat)
    (s : σ) : List Event × σ × Except HostErr Unit :=
  match values with
  | [] => ([], s, Except.ok ())
  | v :: rest =>
    match setOneInput g n32 msb lsb v pos s with
    | (tr, s', Except.ok _) =>
      match setInputValues g n32 msb lsb rest (pos + 1) s' with
      | (tr', s'', r) => (tr ++ tr', s'', r)
    | (tr, s', Except.error e) => (tr, s', Except.error e)

/-- The outer `for (name, values) in inputs` loop (`witness_calculator.rs` lines
121–132): hash each name with `fnv` and transfer its values.  Names are UTF-8 byte
lists. -/
def loadInputs (g : Guest σ) (n32 : Nat) (inputs : List (List Nat × List Int)) (s : σ) :
    List Event × σ × Except HostErr Unit :=
  match inputs with
  | [] => ([], s, Except.ok ())
  | (name, values) :: rest =>
    match setInputValues g n32 (fnv name).1 (fnv name).2 values 0 s with
    | (tr, s', Except.ok _) =>
      match loadInputs g n32 rest s' with
      | (tr', s'', r) => (tr ++ tr', s'', r)
    | (tr, s', Except.error e) => (tr, s', Except.error e)

/-- The inner `for j in 0..n32` read loop of the extraction phase
(`witness_calculator.rs` lines 140–142): `arr[n32 - 1 - j] = read_shared_rw_memory(j)`. -/
def readLimbs (g : Guest σ) (n32 : Nat) (js : List Nat) (arr : List Nat) (s : σ) :
    List Event × σ × Except HostErr (List Nat) :=
  match js with
  | [] => ([], s, Except.ok arr)
  | j :: rest =>
    match Wasm.read_shared_rw_memory g j s with
    | (tr, s', Except.ok v) =>
      match readLimbs g n32 rest (arr.set (n32 - 1 - j) v) s' with
      | (tr', s'', r) => (tr ++ tr', s'', r)
    | (tr, s', Except.error e) => (tr, s', Except.error e)

/-- The `for i in 0..witness_size` extraction loop (`witness_calculator.rs` lines
137–144): `get_witness(i)`, read back `n32` words into a fresh zeroed array, decode with
`from_array32`, and append. -/
def extractWitness (g : Guest σ) (n32 : Nat) (is : List Nat) (s : σ) :
    List Event × σ × Except HostErr (List Int) :=
  match is with
  | [] => ([], s, Except.ok [])
  | i :: rest =>
    match Wasm.get_witness g i s with
    | (tr, s', Except.ok _) =>
      match readLimbs g n32 (List.range n32) (List.replicate n32 0) s' with
      | (tr2, s'', Except.ok arr) =>
        match extractWitness g n32 rest s'' with
        | (tr3, s3, Except.ok w) => (tr ++ tr2 ++ tr3, s3, Except.ok (from_array32 arr :: w))
        | (tr3, s3, Except.error e) => (tr ++ tr2 ++ tr3, s3, Except.error e)
      | (tr2, s'', Except.error e) => (tr ++ tr2, s'', Except.error e)
    | (tr, s', Except.error e) => (tr, s', Except.error e)

/-- `calculate_witness_circom2` (`witness_calculator.rs` lines 111–147): `init`,
`get_field_num_len32`, the input-loading loop, `get_witness_size`, then the extraction
loop. -/
def calculate_witness_circom2 (g : Guest σ) (inputs : List (List Nat × List Int))
    (sanity_check : Bool) (s : σ) : List Event × σ × Except HostErr (List Int) :=
  match Wasm.init g sanity_check s with
  | (tr, s1, Except.error e) => (tr, s1, Except.error e)
  | (tr, s1, Except.ok _) =>
    match Wasm.get_field_num_len32 g s1 with
    | (tr2, s2, Except.error e) => (tr ++ tr2, s2, Except.error e)
    | (tr2, s2, Except.ok n32) =>
      match loadInputs g n32 inputs s2 with
      | (tr3, s3, Except.error e) => (tr ++ tr2 ++ tr3, s3, Except.error e)
      | (tr3, s3, Except.ok _) =>
        match Wasm.get_witness_size g s3 with
        | (tr4, s4, Except.error e) => (tr ++ tr2 ++ tr3 ++ tr4, s4, Except.error e)
        | (tr4, s4, Except.ok ws) =>
          match extractWitness g n32 (List.range ws) s4 with
          | (tr5, s5, r) => (tr ++ tr2 ++ tr3 ++ tr4 ++ tr5, s5, r)

/-- `calculate_witness` (`witness_calculator.rs` lines 101–109): `init`, then
`calculate_witness_circom2` (which calls `init` again). -/
def calculate_witness (g : Guest σ) (inputs : List (List Nat × List Int))
    (sanity_check : Bool) (s : σ) : List Event × σ × Except HostErr (List Int) :=
  match Wasm.init g sanity_check s with
  | (tr, s1, Except.error e) => (tr, s1, Except.error e)
  | (tr, s1, Except.ok _) =>
    match calculate_witness_circom2 g inputs sanity_check s1 with
    | (tr2, s2, r) => (tr ++ tr2, s2, r)

/-- The `WitnessCalculator` struct (`witness_calculator.rs` lines 11–16): the loaded
guest instance (its state), the field's 64-bit limb count, and the protocol version. -/
structure WitnessCalculator (σ : Type) where
  inst : σ
  n64 : Nat
  circom_version : Nat

/-- `WitnessCalculator::calculate_witness` at the struct level: only `self.instance` is
driven; the result threads the final calculator value even when the run fails. -/
def WitnessCalculator.calc (g : Guest σ) (wc : WitnessCalculator σ)
    (inputs : List (List Nat × List Int)) (sanity_check : Bool) :
    List Event × WitnessCalculator σ × Except HostErr (List Int) :=
  match calculate_witness g inputs sanity_check wc.inst with
  | (tr, s', r) => (tr, { wc with inst := s' }, r)

/-- `calculate_witness_element` (`witness_calculator.rs` lines 149–177): run
`calculate_witness`, then map each raw value through the sign normalization and the
field-element construction modulo `p`; a `BigUint` underflow panic in the map aborts. -/
def calculate_witness_element (g : Guest σ) (inputs : List (List Nat × List Int))
    (sanity_check : Bool) (s : σ) (p : Nat) :
    List Event × σ × Except HostErr (List Nat) :=
  match calculate_witness g inputs sanity_check s with
  | (tr, s', Except.error e) => (tr, s', Except.error e)
  | (tr, s', Except.ok w) =>
    match w.mapM (normalizeWitnessElement p) with
    | none => (tr, s', Except.error HostErr.panicErr)
    | some els => (tr, s', Except.ok els)

/-- Event classifiers used to state trace-ordering properties. -/
def isSetSig : Event → Bool
  | Event.setInputSignal _ _ _ => true
  | _ => false

/-- `true` exactly on the two extraction-phase guest calls named by the spec
(`getWitness` and the shared-memory reads). -/
def isWitnessRead : Event → Bool
  | Event.getWitness _ => true
  | Event.readShared _ _ => true
  | _ => false

/-- `true` exactly on the events the input-loading loop can produce. -/
def isInputEv : Event → Bool
  | Event.writeShared _ _ => true
  | Event.setInputSignal _ _ _ => true
  | _ => false

/-- `true` exactly on the events the extraction loop can produce. -/
def isExtractEv : Event → Bool
  | Event.getWitness _ => true
  | Event.readShared _ _ => true
  | _ => false

/-- `true` exactly on `init` events. -/
def isInitEv : Event → Bool
  | Event.init _ => true
  | _ => false

/-- Number of `init` calls recorded in a trace. -/
def countInit (tr : List Event) : Nat :=
  tr.countP isInitEv

/-- The pure mirror of the `readLimbs` loop's array updates: successively set
`arr[n32 - 1 - j]` to the corresponding read value. -/
def writeSeq (n32 : Nat) (arr : List Nat) : List Nat → List Nat → List Nat
  | [], _ => arr
  | _, [] => arr
  | j :: js, v :: vs => writeSeq n32 (arr.set (n32 - 1 - j) v) js vs

/-- A concrete well-behaved guest used for witnesses: a 1-limb field, witness size 2,
shared-memory reads returning `j + 5`, every call succeeding. -/
def demoGuest : Guest Unit where
  init := fun _ s => (s, Except.ok ())
  getFieldNumLen32 := fun s => (s, Except.ok 1)
  writeShared := fun _ _ s => (s, Except.ok ())
  setInputSignal := fun _ _ _ s => (s, Except.ok ())
  getWitnessSize := fun s => (s, Except.ok 2)
  getWitness := fun _ s => (s, Except.ok ())
  readShared := fun j s => (s, Except.ok (j + 5))

/-- `demoGuest` with a `setInputSignal` that always traps. -/
def trapSetSigGuest : Guest Unit :=
  { demoGuest with setInputSignal := fun _ _ _ s => (s, Except.error GuestErr.trap) }

/-- A guest every call of which traps, used to witness the trap-propagation theorem. -/
def allTrapGuest : Guest Unit where
  init := fun _ s => (s, Except.error GuestErr.trap)
  getFieldNumLen32 := fun s => (s, Except.error GuestErr.trap)
  writeShared := fun _ _ s => (s, Except.error GuestErr.trap)
  setInputSignal := fun _ _ _ s => (s, Except.error GuestErr.trap)
  getWitnessSize := fun s => (s, Except.error GuestErr.trap)
  getWitness := fun _ s => (s, Except.error GuestErr.trap)
  readShared := fun _ s => (s, Except.error GuestErr.trap)

/-! ### Codec lemmas -/

lemma take_set_self {α : Type} (l : List α) (i : Nat) (v : α) :
    (l.set i v).take i = l.take i := by
  induction l generalizing i with
  | nil => simp
  | cons a l ih =>
    cases i with
    | zero => simp
    | succ i => simp [List.set, ih]

lemma drop_set_succ {α : Type} (l : List α) (i : Nat) (v : α) (h : i < l.length) :
    (l.set i v).drop i = v :: l.drop (i + 1) := by
  induction l generalizing i with
  | nil => simp at h
  | cons a l ih =>
    cases i with
    | zero => simp
    | succ i =>
      simp only [List.set, List.drop_succ_cons]
      exact ih i (by simpa using h)

lemma from_array32_shift (arr : List Nat) (a : Int) :
    List.foldl (fun res (val : Nat) => res * radix + (val : Int)) a arr =
      a * radix ^ arr.length + from_array32 arr := by
  induction arr generalizing a with
  | nil => simp [from_array32]
  | cons v l ih =>
    simp only [List.foldl_cons, List.length_cons, from_array32]
    rw [ih (a * radix + (v : Int)), ih ((0 : Int) * radix + (v : Int))]
    ring

lemma from_array32_append (a b : List Nat) :
    from_array32 (a ++ b) = from_array32 a * radix ^ b.length + from_array32 b := by
  unfold from_array32
  rw [List.foldl_append]
  exact from_array32_shift b _

lemma from_array32_replicate_zero (c : Nat) :
    from_array32 (List.replicate c 0) = 0 := by
  induction c with
  | zero => rfl
  | succ c ih =>
    rw [List.replicate_succ, from_array32, List.foldl_cons]
    have : ((0 : Int) * radix + ((0 : Nat) : Int)) = 0 := by ring
    rw [this]
    exact ih

lemma limbsBE_zero (c : Nat) : limbsBE 0 c = List.replicate c 0 := by
  induction c with
  | zero => rfl
  | succ c ih =>
    show limbsBE (0 / 4294967296) c ++ [0 % 4294967296] = _
    rw [Nat.zero_div] at *
    rw [ih, List.replicate_succ']

lemma from_array32_limbsBE (c n : Nat) (h : n < 2 ^ (32 * c)) :
    from_array32 (limbsBE n c) = (n : Int) := by
  induction c generalizing n with
  | zero =>
    simp only [Nat.mul_zero, pow_zero, Nat.lt_one_iff] at h
    subst h
    rfl
  | succ c ih =>
    show from_array32 (limbsBE (n / 4294967296) c ++ [n % 4294967296]) = (n : Int)
    rw [from_array32_append]
    have hdiv : n / 4294967296 < 2 ^ (32 * c) := by
      rw [Nat.div_lt_iff_lt_mul (by norm_num)]
      calc n < 2 ^ (32 * (c + 1)) := h
        _ = 2 ^ (32 * c) * 4294967296 := by rw [Nat.mul_add, pow_add]; norm_num
    rw [ih _ hdiv]
    have h1 : from_array32 [n % 4294967296] = ((n % 4294967296 : Nat) : Int) := by
      simp [from_array32]
    rw [h1]
    have h2 : (radix : Int) ^ List.length [n % 4294967296] = ((4294967296 : Nat) : Int) := by
      simp [radix]
    rw [h2]
    push_cast
    omega

lemma radix_pow_cast (c : Nat) : (radix : Int) ^ c = ((2 ^ (32 * c) : Nat) : Int) := by
  have : radix = ((2 ^ 32 : Nat) : Int) := by norm_num [radix]
  rw [this, ← Nat.cast_pow, ← pow_mul]

lemma radix_pos : (0 : Int) < radix := by norm_num [radix]

lemma to_u32_natCast_mod (n : Nat) :
    to_u32 ((n % 4294967296 : Nat) : Int) = some (n % 4294967296) := by
  rw [to_u32, if_pos]
  · rw [Int.toNat_natCast]
  · constructor
    · exact Int.natCast_nonneg _
    · have : n % 4294967296 < 4294967296 := Nat.mod_lt _ (by norm_num)
      show ((n % 4294967296 : Nat) : Int) < radix
      rw [radix]
      exact_mod_cast this

lemma to_array32Loop_eq (c : Nat) :
    ∀ (rem : Int) (res : List Nat), 0 ≤ rem → rem < radix ^ c → c ≤ res.length →
      res.take c = List.replicate c 0 →
      to_array32Loop rem c res = some (limbsBE rem.toNat c ++ res.drop c) := by
  induction c with
  | zero =>
    intro rem res h0 h1 _ _
    rw [pow_zero] at h1
    have hz : rem = 0 := by omega
    subst hz
    rw [to_array32Loop, if_pos rfl, Int.toNat_zero]
    show some res = some ([] ++ res.drop 0)
    rw [List.nil_append, List.drop_zero]
  | succ c ih =>
    intro rem res h0 h1 hlen htake
    by_cases hz : rem = 0
    · subst hz
      rw [to_array32Loop, if_pos rfl]
      rw [Int.toNat_zero, limbsBE_zero, ← htake, List.take_append_drop]
    · lift rem to ℕ using h0 with n hn
      rw [to_array32Loop, if_neg hz]
      have htmod : (n : Int).tmod radix = ((n % 4294967296 : Nat) : Int) :=
        (Int.ofNat_tmod n 4294967296).symm
      have hu : to_u32 ((n : Int).tmod radix) = some (n % 4294967296) := by
        rw [htmod]; exact to_u32_natCast_mod n
      simp only [hu]
      have htdiv : (n : Int).tdiv radix = ((n / 4294967296 : Nat) : Int) :=
        (Int.ofNat_tdiv n 4294967296).symm
      rw [htdiv]
      have hlt : ((n / 4294967296 : Nat) : Int) < radix ^ c := by
        rw [radix_pow_cast]
        have hn1 : n < 2 ^ (32 * (c + 1)) := by
          have h1' := h1
          rw [radix_pow_cast] at h1'
          exact_mod_cast h1'
        have hdiv : n / 4294967296 < 2 ^ (32 * c) := by
          rw [Nat.div_lt_iff_lt_mul (by norm_num)]
          calc n < 2 ^ (32 * (c + 1)) := hn1
            _ = 2 ^ (32 * c) * 4294967296 := by rw [Nat.mul_add, pow_add]; norm_num
        exact_mod_cast hdiv
      have hlen' : c ≤ (res.set c (n % 4294967296)).length := by
        rw [List.length_set]; omega
      have hmin : c ⊓ (c + 1) = c := by omega
      have htake' : (res.set c (n % 4294967296)).take c = List.replicate c 0 := by
        rw [take_set_self]
        have h3 : (res.take (c + 1)).take c = res.take c := by
          rw [List.take_take, hmin]
        rw [← h3, htake, List.take_replicate, hmin]
      rw [ih _ _ (Int.natCast_nonneg _) hlt hlen' htake']
      have hdrop : (res.set c (n % 4294967296)).drop c = (n % 4294967296) :: res.drop (c + 1) :=
        drop_set_succ res c _ (by omega)
      rw [hdrop]
      have hlimb : limbsBE ((n : Int).toNat) (c + 1) =
          limbsBE (((n / 4294967296 : Nat) : Int).toNat) c ++ [n % 4294967296] := by
        rw [Int.toNat_natCast, Int.toNat_natCast]
        rfl
      rw [hlimb, List.append_assoc, List.singleton_append]

lemma to_array32_eq_limbs (n w : Nat) (h : n < 2 ^ (32 * w)) :
    to_array32 (n : Int) w = some (limbsBE n w) := by
  rw [to_array32]
  have hmain := to_array32Loop_eq w (n : Int) (List.replicate w 0) (Int.natCast_nonneg _)
    (by rw [radix_pow_cast]; exact_mod_cast h)
    (by simp) (by rw [List.take_replicate, Nat.min_self])
  rw [hmain, Int.toNat_natCast]
  have hrep : (List.replicate w (0 : Nat)).drop w = [] := by
    rw [List.drop_replicate, Nat.sub_self, List.replicate_zero]
  rw [hrep, List.append_nil]

lemma to_array32Loop_overflow (c : Nat) :
    ∀ (rem : Int) (res : List Nat), radix ^ c ≤ rem → to_array32Loop rem c res = none := by
  induction c with
  | zero =>
    intro rem res h
    rw [pow_zero] at h
    rw [to_array32Loop, if_neg (by omega)]
  | succ c ih =>
    intro rem res h
    have hpow : (0 : Int) < radix ^ (c + 1) := pow_pos radix_pos _
    have h0 : (0 : Int) ≤ rem := le_trans (le_of_lt hpow) h
    have hz : rem ≠ 0 := by omega
    lift rem to ℕ using h0 with n hn
    rw [to_array32Loop, if_neg hz]
    have htmod : (n : Int).tmod radix = ((n % 4294967296 : Nat) : Int) :=
      (Int.ofNat_tmod n 4294967296).symm
    have hu : to_u32 ((n : Int).tmod radix) = some (n % 4294967296) := by
      rw [htmod]; exact to_u32_natCast_mod n
    simp only [hu]
    have htdiv : (n : Int).tdiv radix = ((n / 4294967296 : Nat) : Int) :=
      (Int.ofNat_tdiv n 4294967296).symm
    rw [htdiv]
    apply ih
    rw [radix_pow_cast]
    have hn' : 2 ^ (32 * (c + 1)) ≤ n := by
      have h' := h
      rw [radix_pow_cast] at h'
      exact_mod_cast h'
    have hdiv : 2 ^ (32 * c) ≤ n / 4294967296 := by
      rw [Nat.le_div_iff_mul_le (by norm_num : 0 < 4294967296)]
      calc 2 ^ (32 * c) * 4294967296 = 2 ^ (32 * (c + 1)) := by
            rw [Nat.mul_add, pow_add]; norm_num
        _ ≤ n := hn'
    exact_mod_cast hdiv

lemma to_array32Loop_neg (c : Nat) :
    ∀ (rem : Int) (res : List Nat), rem < 0 → to_array32Loop rem c res = none := by
  induction c with
  | zero =>
    intro rem res h
    rw [to_array32Loop, if_neg (by omega)]
  | succ c ih =>
    intro rem res h
    obtain ⟨m, rfl⟩ := Int.eq_negSucc_of_lt_zero h
    rw [to_array32Loop, if_neg (by exact Int.negSucc_ne_zero m)]
    have htmod : (Int.negSucc m).tmod radix = -(((m + 1) % 4294967296 : Nat) : Int) := rfl
    rw [htmod]
    by_cases hm : (m + 1) % 4294967296 = 0
    · rw [hm]
      have hu : to_u32 (-(((0 : Nat)) : Int)) = some 0 := by
        rw [to_u32, if_pos] <;> simp [radix]
      simp only [hu]
      have htdiv : (Int.negSucc m).tdiv radix = -(((m + 1) / 4294967296 : Nat) : Int) := rfl
      rw [htdiv]
      apply ih
      have h1 : 0 < (m + 1) / 4294967296 := by
        apply Nat.div_pos _ (by norm_num)
        have hdvd := Nat.dvd_of_mod_eq_zero hm
        exact Nat.le_of_dvd (by omega) hdvd
      omega
    · have hu : to_u32 (-(((m + 1) % 4294967296 : Nat) : Int)) = none := by
        rw [to_u32, if_neg]
        rintro ⟨hc, -⟩
        omega
      simp only [hu]

lemma to_array32_neg (v : Int) (n : Nat) (h : v < 0) : to_array32 v n = none :=
  to_array32Loop_neg n v (List.replicate n 0) h

/-! ### Hash lemmas -/

lemma fnvHasherWrite_eq_spec (bytes : List Nat) :
    ∀ h : Nat, fnvHasherWrite h bytes = spec_fnv1a64Go h bytes := by
  induction bytes with
  | nil => intro h; rfl
  | cons b rest ih =>
    intro h
    rw [fnvHasherWrite, List.foldl_cons]
    exact ih (fnvUpdate h b)

lemma fnvHasherWrite_lt (bytes : List Nat) :
    ∀ h : Nat, h < 2 ^ 64 → fnvHasherWrite h bytes < 2 ^ 64 := by
  induction bytes with
  | nil => intro h hh; exact hh
  | cons b rest ih =>
    intro h _
    rw [fnvHasherWrite, List.foldl_cons]
    exact ih _ (Nat.mod_lt _ (by norm_num))

/-! ### Driver trace lemmas -/

lemma writeLimbs_ok_trace {σ : Type} (g : Guest σ) (n32 : Nat) (f_arr : List Nat) :
    ∀ (js : List Nat) (s : σ) (tr : List Event) (s' : σ),
      writeLimbs g n32 f_arr js s = (tr, s', Except.ok ()) →
      tr = js.map (fun j => Event.writeShared j (f_arr.getD (n32 - 1 - j) 0)) := by
  intro js
  induction js with
  | nil =>
    intro s tr s' h
    simp only [writeLimbs] at h
    cases h
    rfl
  | cons j rest ih =>
    intro s tr s' h
    rcases hg : g.writeShared j (f_arr.getD (n32 - 1 - j) 0) s with ⟨s1, r1⟩
    simp only [writeLimbs, Wasm.write_shared_rw_memory, hg] at h
    cases r1 with
    | error e => simp at h
    | ok u =>
      rcases hrec : writeLimbs g n32 f_arr rest s1 with ⟨tr2, s2, r2⟩
      simp only [hrec] at h
      cases r2 with
      | error e => simp at h
      | ok u2 =>
        cases h
        rw [List.map_cons, ih _ _ _ hrec]
        rfl

lemma readLimbs_ok_spec {σ : Type} (g : Guest σ) (n32 : Nat) :
    ∀ (js arr : List Nat) (s : σ) (tr : List Event) (s' : σ) (res : List Nat),
      readLimbs g n32 js arr s = (tr, s', Except.ok res) →
      ∃ vs : List Nat, vs.length = js.length ∧
        tr = List.zipWith (fun j v => Event.readShared j v) js vs ∧
        res = writeSeq n32 arr js vs := by
  intro js
  induction js with
  | nil =>
    intro arr s tr s' res h
    simp only [readLimbs] at h
    cases h
    exact ⟨[], rfl, rfl, rfl⟩
  | cons j rest ih =>
    intro arr s tr s' res h
    rcases hg : g.readShared j s with ⟨s1, r1⟩
    simp only [readLimbs, Wasm.read_shared_rw_memory, hg] at h
    cases r1 with
    | error e => simp at h
    | ok v =>
      rcases hrec : readLimbs g n32 rest (arr.set (n32 - 1 - j) v) s1 with ⟨tr2, s2, r2⟩
      simp only [hrec] at h
      cases r2 with
      | error e => simp at h
      | ok res2 =>
        cases h
        obtain ⟨vs, hlen, htr, hres⟩ := ih _ _ _ _ _ hrec
        refine ⟨v :: vs, by simp [hlen], ?_, ?_⟩
        · rw [List.zipWith_cons_cons, ← htr]
          rfl
        · rw [writeSeq, ← hres]

lemma writeSeq_range' (n32 : Nat) :
    ∀ (vs : List Nat) (k : Nat) (arr : List Nat), arr.length = n32 →
      vs.length = n32 - k → k ≤ n32 →
      writeSeq n32 arr (List.range' k (n32 - k)) vs = vs.reverse ++ arr.drop (n32 - k) := by
  intro vs
  induction vs with
  | nil =>
    intro k arr _ hlen _
    rw [show n32 - k = 0 from hlen.symm]
    simp [writeSeq]
  | cons v vs' ih =>
    intro k arr harr hlen hk
    have hm : n32 - k = vs'.length + 1 := hlen.symm
    rw [hm, List.range'_succ]
    rw [writeSeq]
    have hk' : k < n32 := by omega
    have harr' : (arr.set (n32 - 1 - k) v).length = n32 := by
      rw [List.length_set]; exact harr
    have hlen' : vs'.length = n32 - (k + 1) := by omega
    have := ih (k + 1) (arr.set (n32 - 1 - k) v) harr' hlen' (by omega)
    rw [show n32 - (k + 1) = vs'.length from hlen'.symm] at this
    rw [this]
    have hdrop : (arr.set (n32 - 1 - k) v).drop vs'.length = v :: arr.drop (vs'.length + 1) := by
      have h1 : vs'.length = n32 - 1 - k := by omega
      rw [h1]
      have h2 : n32 - 1 - k + 1 = n32 - k := by omega
      rw [drop_set_succ arr (n32 - 1 - k) v (by omega), h2]
    rw [hdrop, List.reverse_cons, List.append_assoc, List.singleton_append, ← hm]

lemma readLimbs_range_result {σ : Type} (g : Guest σ) (n32 : Nat) (s : σ)
    (tr : List Event) (s' : σ) (arr : List Nat)
    (h : readLimbs g n32 (List.range n32) (List.replicate n32 0) s = (tr, s', Except.ok arr)) :
    ∃ vs : List Nat, vs.length = n32 ∧
      tr = List.zipWith (fun j v => Event.readShared j v) (List.range n32) vs ∧
      arr = vs.reverse := by
  obtain ⟨vs, hlen, htr, hres⟩ := readLimbs_ok_spec g n32 _ _ _ _ _ _ h
  rw [List.length_range] at hlen
  refine ⟨vs, hlen, htr, ?_⟩
  rw [hres, List.range_eq_range']
  have h0 : List.range' 0 n32 = List.range' 0 (n32 - 0) := by rw [Nat.sub_zero]
  rw [h0, writeSeq_range' n32 vs 0 _ (List.length_replicate _ _) (by omega) (by omega)]
  rw [Nat.sub_zero, List.drop_replicate, Nat.sub_self, List.replicate_zero, List.append_nil]

lemma inputEv_not_witnessRead (e : Event) (h : isInputEv e = true) :
    isWitnessRead e = false := by
  cases e <;> simp [isInputEv, isWitnessRead] at h ⊢

lemma inputEv_not_init (e : Event) (h : isInputEv e = true) : isInitEv e = false := by
  cases e <;> simp [isInputEv, isInitEv] at h ⊢

lemma extractEv_not_setSig (e : Event) (h : isExtractEv e = true) : isSetSig e = false := by
  cases e <;> simp [isExtractEv, isSetSig] at h ⊢

lemma extractEv_not_init (e : Event) (h : isExtractEv e = true) : isInitEv e = false := by
  cases e <;> simp [isExtractEv, isInitEv] at h ⊢

lemma readLimbs_ok_events {σ : Type} (g : Guest σ) (n32 : Nat) (js arr : List Nat) (s : σ)
    (tr : List Event) (s' : σ) (res : List Nat)
    (h : readLimbs g n32 js arr s = (tr, s', Except.ok res)) :
    ∀ e ∈ tr, isExtractEv e = true := by
  obtain ⟨vs, _, rfl, -⟩ := readLimbs_ok_spec g n32 _ _ _ _ _ _ h
  intro e he
  rw [List.mem_iff_getElem] at he
  obtain ⟨i, hi, rfl⟩ := he
  rw [List.getElem_zipWith]
  rfl

lemma setOneInput_ok_events {σ : Type} (g : Guest σ) (n32 msb lsb : Nat) (value : Int)
    (pos : Nat) (s : σ) (tr : List Event) (s' : σ)
    (h : setOneInput g n32 msb lsb value pos s = (tr, s', Except.ok ())) :
    ∀ e ∈ tr, isInputEv e = true := by
  rcases ha : to_array32 value n32 with _ | f_arr
  · simp only [setOneInput, ha] at h
    simp at h
  · simp only [setOneInput, ha] at h
    rcases hw : writeLimbs g n32 f_arr (List.range n32) s with ⟨tr1, s1, r1⟩
    simp only [hw] at h
    cases r1 with
    | error e => simp at h
    | ok u =>
      simp only [Wasm.set_input_signal] at h
      cases h
      intro e he
      rcases List.mem_append.mp he with h1 | h2
      · have htr1 := writeLimbs_ok_trace g n32 f_arr _ _ _ _ hw
        subst htr1
        obtain ⟨j, -, rfl⟩ := List.mem_map.mp h1
        rfl
      · have : e = Event.setInputSignal msb lsb pos := by simpa using h2
        subst this
        rfl

lemma setInputValues_ok_events {σ : Type} (g : Guest σ) (n32 msb lsb : Nat) :
    ∀ (values : List Int) (pos : Nat) (s : σ) (tr : List Event) (s' : σ),
      setInputValues g n32 msb lsb values pos s = (tr, s', Except.ok ()) →
      ∀ e ∈ tr, isInputEv e = true := by
  intro values
  induction values with
  | nil =>
    intro pos s tr s' h
    simp only [setInputValues] at h
    cases h
    intro e he
    simp at he
  | cons v rest ih =>
    intro pos s tr s' h
    rcases h1 : setOneInput g n32 msb lsb v pos s with ⟨tr1, s1, r1⟩
    simp only [setInputValues, h1] at h
    cases r1 with
    | error e => simp at h
    | ok u =>
      rcases hrec : setInputValues g n32 msb lsb rest (pos + 1) s1 with ⟨tr2, s2, r2⟩
      simp only [hrec] at h
      cases r2 with
      | error e => simp at h
      | ok u2 =>
        cases h
        intro e he
        rcases List.mem_append.mp he with hm | hm
        · exact setOneInput_ok_events g n32 msb lsb v pos s tr1 s1 h1 e hm
        · exact ih _ _ _ _ hrec e hm

lemma loadInputs_ok_events {σ : Type} (g : Guest σ) (n32 : Nat) :
    ∀ (inputs : List (List Nat × List Int)) (s : σ) (tr : List Event) (s' : σ),
      loadInputs g n32 inputs s = (tr, s', Except.ok ()) →
      ∀ e ∈ tr, isInputEv e = true := by
  intro inputs
  induction inputs with
  | nil =>
    intro s tr s' h
    simp only [loadInputs] at h
    cases h
    intro e he
    simp at he
  | cons p rest ih =>
    intro s tr s' h
    rcases h1 : setInputValues g n32 (fnv p.1).1 (fnv p.1).2 p.2 0 s with ⟨tr1, s1, r1⟩
    simp only [loadInputs, h1] at h
    cases r1 with
    | error e => simp at h
    | ok u =>
      rcases hrec : loadInputs g n32 rest s1 with ⟨tr2, s2, r2⟩
      simp only [hrec] at h
      cases r2 with
      | error e => simp at h
      | ok u2 =>
        cases h
        intro e he
        rcases List.mem_append.mp he with hm | hm
        · exact setInputValues_ok_events g n32 _ _ p.2 0 s tr1 s1 h1 e hm
        · exact ih _ _ _ hrec e hm

lemma extractWitness_ok {σ : Type} (g : Guest σ) (n32 : Nat) :
    ∀ (is : List Nat) (s : σ) (tr : List Event) (s' : σ) (w : List Int),
      extractWitness g n32 is s = (tr, s', Except.ok w) →
      w.length = is.length ∧ ∀ e ∈ tr, isExtractEv e = true := by
  intro is
  induction is with
  | nil =>
    intro s tr s' w h
    simp only [extractWitness] at h
    cases h
    exact ⟨rfl, by intro e he; simp at he⟩
  | cons i rest ih =>
    intro s tr s' w h
    rcases hg : g.getWitness i s with ⟨s1, r1⟩
    simp only [extractWitness, Wasm.get_witness, hg] at h
    cases r1 with
    | error e => simp at h
    | ok u =>
      rcases hr : readLimbs g n32 (List.range n32) (List.replicate n32 0) s1 with ⟨tr2, s2, r2⟩
      simp only [hr] at h
      cases r2 with
      | error e => simp at h
      | ok arr =>
        rcases hrec : extractWitness g n32 rest s2 with ⟨tr3, s3, r3⟩
        simp only [hrec] at h
        cases r3 with
        | error e => simp at h
        | ok w3 =>
          cases h
          obtain ⟨hlen, hev⟩ := ih _ _ _ _ hrec
          refine ⟨by simp [hlen], ?_⟩
          intro e he
          rcases List.mem_append.mp he with hm | hm
          · rcases List.mem_append.mp hm with hm1 | hm2
            · have : e = Event.getWitness i := by simpa using hm1
              subst this
              rfl
            · exact readLimbs_ok_events g n32 _ _ _ _ _ _ hr e hm2
          · exact hev e hm

/-! ### Claim theorems -/

/-- C1: limb-codec round trip — for every width `w ≥ 1` and every `0 ≤ v < 2^(32*w)`,
decoding the `w`-limb encoding of `v` returns `v`:
`from_array32 (to_array32 v w) = v`. -/
theorem C1_limb_codec_roundtrip (w : Nat) (v : Int) (hw : 1 ≤ w) (h0 : 0 ≤ v)
    (hv : v < 2 ^ (32 * w)) : (to_array32 v w).map from_array32 = some v := by
  lift v to ℕ using h0 with n hn
  have hn' : n < 2 ^ (32 * w) := by exact_mod_cast hv
  rw [to_array32_eq_limbs n w hn']
  simp [from_array32_limbsBE w n hn']

/-- Witness for C1 at `w = 1`, `v = 5`. -/
theorem C1_witness : (to_array32 5 1).map from_array32 = some 5 :=
  C1_limb_codec_roundtrip 1 5 (by norm_num) (by norm_num) (by norm_num)

/-- C2 counterexample: at `v = 2^32`, `w = 1` the encoder does not return the
least-significant limb normally — it panics (modelled as `none`), because the loop
decrements the `usize` counter `c` below zero. -/
theorem C2_counterexample : to_array32 4294967296 1 = none := by decide

/-- C2 (amended): for every `v ≥ 2^(32*w)` the encoder `to_array32` panics (`none`)
rather than truncating silently and returning normally. -/
theorem C2_encode_overflow_panics (w : Nat) (v : Int) (h : 2 ^ (32 * w) ≤ v) :
    to_array32 v w = none := by
  apply to_array32Loop_overflow
  rw [radix_pow_cast]
  exact_mod_cast h

/-- Witness for the amended C2 at `w = 1`, `v = 2^33`. -/
theorem C2_witness : to_array32 8589934592 1 = none :=
  C2_encode_overflow_panics 1 8589934592 (by norm_num)

/-- C3: `fnv` equals the 64-bit FNV-1a hash with the default offset basis over the
name's UTF-8 bytes, returned as the pair (high 32 bits, low 32 bits), and it is
deterministic (a pure function of the bytes). -/
theorem C3_signal_addressing (inp : List Nat) :
    fnv inp = (spec_fnv1a64 inp >>> 32, spec_fnv1a64 inp % 2 ^ 32) ∧
    fnv inp = fnv inp := by
  refine ⟨?_, rfl⟩
  rw [fnv, spec_fnv1a64, ← fnvHasherWrite_eq_spec, ← fnvOffsetBasis]
  have hlt : fnvHasherWrite fnvOffsetBasis inp < 2 ^ 64 :=
    fnvHasherWrite_lt inp _ (by norm_num [fnvOffsetBasis])
  have h1 : fnvHasherWrite fnvOffsetBasis inp >>> 32 < 2 ^ 32 := by
    rw [Nat.shiftRight_eq_div_pow]
    rw [Nat.div_lt_iff_lt_mul (by norm_num)]
    calc fnvHasherWrite fnvOffsetBasis inp < 2 ^ 64 := hlt
      _ = 2 ^ 32 * 2 ^ 32 := by norm_num
  rw [Nat.mod_eq_of_lt h1]

/-- C4: word-order reversal — on the write path, shared-memory word `j` carries limb
`n32 - 1 - j` of the encoded value; on the read path, limb `n32 - 1 - j` of the decoded
array is the word read at index `j`; the same reversal on both sides. -/
theorem C4_word_order_reversal {σ : Type} (g : Guest σ) (n32 : Nat) (f_arr : List Nat)
    (sW0 sR0 : σ) (trW trR : List Event) (sW1 sR1 : σ) (arr : List Nat) :
    (writeLimbs g n32 f_arr (List.range n32) sW0 = (trW, sW1, Except.ok ()) →
      ∀ j, j < n32 → Event.writeShared j (f_arr.getD (n32 - 1 - j) 0) ∈ trW) ∧
    (readLimbs g n32 (List.range n32) (List.replicate n32 0) sR0 = (trR, sR1, Except.ok arr) →
      ∀ j, j < n32 → Event.readShared j (arr.getD (n32 - 1 - j) 0) ∈ trR) := by
  constructor
  · intro h j hj
    rw [writeLimbs_ok_trace g n32 f_arr _ _ _ _ h]
    exact List.mem_map_of_mem _ (List.mem_range.mpr hj)
  · intro h j hj
    obtain ⟨vs, hlen, rfl, rfl⟩ := readLimbs_range_result g n32 _ _ _ _ h
    have hj' : j < vs.length := by omega
    have hrevlen : n32 - 1 - j < vs.reverse.length := by
      rw [List.length_reverse, hlen]; omega
    have hrev : vs.reverse.getD (n32 - 1 - j) 0 = vs.getD j 0 := by
      rw [List.getD_eq_getElem _ _ hrevlen, List.getElem_reverse,
        List.getD_eq_getElem _ _ hj']
      simp only [List.length_reverse, hlen]
      simp only [show n32 - 1 - (n32 - 1 - j) = j from by omega]
    have hjz : j < (List.zipWith (fun j v => Event.readShared j v)
        (List.range n32) vs).length := by
      rw [List.length_zipWith, List.length_range, hlen]
      omega
    have hget : (List.zipWith (fun j v => Event.readShared j v)
        (List.range n32) vs).get ⟨j, hjz⟩ = Event.readShared j (vs.getD j 0) := by
      rw [List.get_eq_getElem, List.getElem_zipWith, List.getElem_range,
        List.getD_eq_getElem _ _ hj']
    rw [hrev, ← hget]
    exact List.get_mem _ _ _

/-- Witness for C4 at `n32 = 2` with `f_arr = [7, 9]` against the demo guest: the word
written at index 0 is limb 1 (`9`), and limb 1 of the read-back array is the word the
guest returned at index 0 (`5`). -/
theorem C4_witness :
    Event.writeShared 0 9 ∈
      ([Event.writeShared 0 9, Event.writeShared 1 7] : List Event) ∧
    Event.readShared 0 5 ∈
      ([Event.readShared 0 5, Event.readShared 1 6] : List Event) :=
  ⟨(C4_word_order_reversal demoGuest 2 [7, 9] () ()
      [Event.writeShared 0 9, Event.writeShared 1 7]
      [Event.readShared 0 5, Event.readShared 1 6] () () [6, 5]).1 (by decide) 0 (by decide),
   (C4_word_order_reversal demoGuest 2 [7, 9] () ()
      [Event.writeShared 0 9, Event.writeShared 1 7]
      [Event.readShared 0 5, Event.readShared 1 6] () () [6, 5]).2 (by decide) 0 (by decide)⟩

/-- C5: whenever `calculate_witness` succeeds, the returned witness has exactly the
length reported by the guest's `getWitnessSize` at extraction time (the value recorded
in the `getWitnessSize` trace event), and every extraction call (`getWitness` /
shared-memory read) happens after all `setInputSignal` calls. -/
theorem C5_witness_length_invariant {σ : Type} (g : Guest σ)
    (inputs : List (List Nat × List Int)) (sanity_check : Bool) (s : σ)
    (tr : List Event) (s' : σ) (w : List Int)
    (h : calculate_witness g inputs sanity_check s = (tr, s', Except.ok w)) :
    ∃ t1 t2, tr = t1 ++ Event.getWitnessSize w.length :: t2 ∧
      (∀ e ∈ t1, isWitnessRead e = false) ∧
      (∀ e ∈ t2, isSetSig e = false) := by
  rcases hg1 : g.init (if sanity_check then 1 else 0) s with ⟨s1, r1⟩
  simp only [calculate_witness, Wasm.init, hg1] at h
  cases r1 with
  | error e => simp at h
  | ok u1 =>
    rcases hc : calculate_witness_circom2 g inputs sanity_check s1 with ⟨tr2, s2, r2⟩
    simp only [hc] at h
    cases r2 with
    | error e => simp at h
    | ok w2 =>
      cases h
      rcases hg2 : g.init (if sanity_check then 1 else 0) s1 with ⟨s3, r3⟩
      simp only [calculate_witness_circom2, Wasm.init, hg2] at hc
      cases r3 with
      | error e => simp at hc
      | ok u3 =>
        rcases hg3 : g.getFieldNumLen32 s3 with ⟨s4, r4⟩
        simp only [Wasm.get_field_num_len32, hg3] at hc
        cases r4 with
        | error e => simp at hc
        | ok n32 =>
          rcases hload : loadInputs g n32 inputs s4 with ⟨trL, s5, r5⟩
          simp only [hload] at hc
          cases r5 with
          | error e => simp at hc
          | ok u5 =>
            rcases hg4 : g.getWitnessSize s5 with ⟨s6, r6⟩
            simp only [Wasm.get_witness_size, hg4] at hc
            cases r6 with
            | error e => simp at hc
            | ok ws =>
              rcases hext : extractWitness g n32 (List.range ws) s6 with ⟨trE, s7, r7⟩
              simp only [hext] at hc
              cases r7 with
              | error e => simp at hc
              | ok wE =>
                cases hc
                obtain ⟨hlenE, hevE⟩ := extractWitness_ok g n32 _ _ _ _ _ hext
                rw [List.length_range] at hlenE
                refine ⟨Event.init (if sanity_check then 1 else 0) ::
                    Event.init (if sanity_check then 1 else 0) ::
                    Event.getFieldNumLen32 n32 :: trL, trE, ?_, ?_, ?_⟩
                · rw [hlenE]
                  simp
                · intro e he
                  simp only [List.mem_cons] at he
                  rcases he with rfl | rfl | rfl | hm
                  · rfl
                  · rfl
                  · rfl
                  · exact inputEv_not_witnessRead e (loadInputs_ok_events g n32 _ _ _ _ hload e hm)
                · intro e he
                  exact extractEv_not_setSig e (hevE e he)

/-- Witness for C5: a full run against the demo guest (no inputs, 1-limb field, witness
size 2). -/
theorem C5_witness :
    ∃ t1 t2,
      ([Event.init 1, Event.init 1, Event.getFieldNumLen32 1, Event.getWitnessSize 2,
        Event.getWitness 0, Event.readShared 0 5, Event.getWitness 1,
        Event.readShared 0 5] : List Event) = t1 ++ Event.getWitnessSize 2 :: t2 ∧
      (∀ e ∈ t1, isWitnessRead e = false) ∧
      (∀ e ∈ t2, isSetSig e = false) :=
  C5_witness_length_invariant demoGuest [] true ()
    [Event.init 1, Event.init 1, Event.getFieldNumLen32 1, Event.getWitnessSize 2,
      Event.getWitness 0, Event.readShared 0 5, Event.getWitness 1, Event.readShared 0 5]
    () [5, 5] (by decide)

/-- C6 counterexample: a guest whose `setInputSignal` traps on every call, yet the whole
witness computation completes successfully — the trap is silently swallowed by the
`set_input_signal` wrapper (`let _ = func.call(...)`), so not every guest failure aborts
the run or surfaces as a typed error. -/
theorem C6_counterexample :
    (trapSetSigGuest.setInputSignal 5 6 0 ()).2 = Except.error GuestErr.trap ∧
    (calculate_witness trapSetSigGuest [([97], [3])] true ()).2.2 = Except.ok [5, 5] :=
  ⟨rfl, by decide⟩

/-- C6 (amended): a guest trap in `init`, `getFieldNumLen32`, `writeSharedRWMemory`,
`getWitnessSize`, `getWitness` or `readSharedRWMemory` aborts the run as a host panic
(not a typed error result), while a trap in `setInputSignal` is silently swallowed —
the wrapper always reports success and the run continues. -/
theorem C6_trap_handling {σ : Type} (g : Guest σ) :
    (∀ (msb lsb pos : Nat) (s : σ),
      (Wasm.set_input_signal g msb lsb pos s).2.2 = Except.ok ()) ∧
    (∀ (sanity_check : Bool) (s : σ) (e : GuestErr),
      (g.init (if sanity_check then 1 else 0) s).2 = Except.error e →
      (Wasm.init g sanity_check s).2.2 = Except.error HostErr.panicErr) ∧
    (∀ (s : σ) (e : GuestErr), (g.getFieldNumLen32 s).2 = Except.error e →
      (Wasm.get_field_num_len32 g s).2.2 = Except.error HostErr.panicErr) ∧
    (∀ (j v : Nat) (s : σ) (e : GuestErr), (g.writeShared j v s).2 = Except.error e →
      (Wasm.write_shared_rw_memory g j v s).2.2 = Except.error HostErr.panicErr) ∧
    (∀ (s : σ) (e : GuestErr), (g.getWitnessSize s).2 = Except.error e →
      (Wasm.get_witness_size g s).2.2 = Except.error HostErr.panicErr) ∧
    (∀ (i : Nat) (s : σ) (e : GuestErr), (g.getWitness i s).2 = Except.error e →
      (Wasm.get_witness g i s).2.2 = Except.error HostErr.panicErr) ∧
    (∀ (j : Nat) (s : σ) (e : GuestErr), (g.readShared j s).2 = Except.error e →
      (Wasm.read_shared_rw_memory g j s).2.2 = Except.error HostErr.panicErr) := by
  refine ⟨fun msb lsb pos s => rfl, ?_, ?_, ?_, ?_, ?_, ?_⟩
  · intro sc s e h
    rcases hg : g.init (if sc then 1 else 0) s with ⟨s1, r1⟩
    have h' : r1 = Except.error e := by rw [hg] at h; exact h
    subst h'
    simp [Wasm.init, hg]
  · intro s e h
    rcases hg : g.getFieldNumLen32 s with ⟨s1, r1⟩
    have h' : r1 = Except.error e := by rw [hg] at h; exact h
    subst h'
    simp [Wasm.get_field_num_len32, hg]
  · intro j v s e h
    rcases hg : g.writeShared j v s with ⟨s1, r1⟩
    have h' : r1 = Except.error e := by rw [hg] at h; exact h
    subst h'
    simp [Wasm.write_shared_rw_memory, hg]
  · intro s e h
    rcases hg : g.getWitnessSize s with ⟨s1, r1⟩
    have h' : r1 = Except.error e := by rw [hg] at h; exact h
    subst h'
    simp [Wasm.get_witness_size, hg]
  · intro i s e h
    rcases hg : g.getWitness i s with ⟨s1, r1⟩
    have h' : r1 = Except.error e := by rw [hg] at h; exact h
    subst h'
    simp [Wasm.get_witness, hg]
  · intro j s e h
    rcases hg : g.readShared j s with ⟨s1, r1⟩
    have h' : r1 = Except.error e := by rw [hg] at h; exact h
    subst h'
    simp [Wasm.read_shared_rw_memory, hg]

/-- Witness for the amended C6 against the always-trapping guest. -/
theorem C6_witness :
    (Wasm.set_input_signal allTrapGuest 1 2 3 ()).2.2 = Except.ok () ∧
    (Wasm.init allTrapGuest true ()).2.2 = Except.error HostErr.panicErr ∧
    (Wasm.get_field_num_len32 allTrapGuest ()).2.2 = Except.error HostErr.panicErr ∧
    (Wasm.write_shared_rw_memory allTrapGuest 0 7 ()).2.2 = Except.error HostErr.panicErr ∧
    (Wasm.get_witness_size allTrapGuest ()).2.2 = Except.error HostErr.panicErr ∧
    (Wasm.get_witness allTrapGuest 0 ()).2.2 = Except.error HostErr.panicErr ∧
    (Wasm.read_shared_rw_memory allTrapGuest 0 ()).2.2 = Except.error HostErr.panicErr :=
  ⟨(C6_trap_handling allTrapGuest).1 1 2 3 (),
   (C6_trap_handling allTrapGuest).2.1 true () GuestErr.trap rfl,
   (C6_trap_handling allTrapGuest).2.2.1 () GuestErr.trap rfl,
   (C6_trap_handling allTrapGuest).2.2.2.1 0 7 () GuestErr.trap rfl,
   (C6_trap_handling allTrapGuest).2.2.2.2.1 () GuestErr.trap rfl,
   (C6_trap_handling allTrapGuest).2.2.2.2.2.1 0 () GuestErr.trap rfl,
   (C6_trap_handling allTrapGuest).2.2.2.2.2.2 0 () GuestErr.trap rfl⟩

/-- C7 counterexample: supplying the negative input `-1` makes the run abort with a host
panic (the encoder's `to_u32().unwrap()` fails); no typed `NegativeInputError` result
exists anywhere in this code — its only failure mode is the panic. -/
theorem C7_counterexample :
    (calculate_witness demoGuest [([97], [-1])] true ()).2.2 =
      Except.error HostErr.panicErr := by
  decide

/-- C7 (amended): a negative input value makes the encoder panic (`to_array32` returns
`none`, and the input-transfer step aborts with a host panic before writing anything),
rather than being rejected with a typed error or silently mis-encoded; non-negative
in-range values encode normally. -/
theorem C7_negative_input_panics :
    (∀ (v : Int) (n : Nat), v < 0 → to_array32 v n = none) ∧
    (∀ (σ : Type) (g : Guest σ) (n32 msb lsb : Nat) (v : Int) (pos : Nat) (s : σ),
      v < 0 → setOneInput g n32 msb lsb v pos s = ([], s, Except.error HostErr.panicErr)) ∧
    (∀ (n : Nat) (v : Int), 0 ≤ v → v < 2 ^ (32 * n) → ∃ arr, to_array32 v n = some arr) := by
  refine ⟨fun v n h => to_array32_neg v n h, fun σ g n32 msb lsb v pos s h => ?_,
    fun n v h0 hv => ?_⟩
  · simp only [setOneInput, to_array32_neg v n32 h]
  · lift v to ℕ using h0 with m hm
    exact ⟨limbsBE m n, to_array32_eq_limbs m n (by exact_mod_cast hv)⟩

/-- Witness for the amended C7 at `v = -1` (and `v = 3` for the in-range part). -/
theorem C7_witness :
    to_array32 (-1) 1 = none ∧
    setOneInput demoGuest 1 2 3 (-1) 0 () = ([], (), Except.error HostErr.panicErr) ∧
    ∃ arr, to_array32 3 1 = some arr :=
  ⟨C7_negative_input_panics.1 (-1) 1 (by norm_num),
   C7_negative_input_panics.2.1 Unit demoGuest 1 2 3 (-1) 0 () (by norm_num),
   C7_negative_input_panics.2.2 1 3 (by norm_num) (by norm_num)⟩

/-- C8 counterexample: in a successful run of `calculate_witness` the guest's `init`
entry is invoked twice (once by `calculate_witness` and once again by
`calculate_witness_circom2`), not exactly once. -/
theorem C8_counterexample :
    countInit (calculate_witness demoGuest [] true ()).1 = 2 ∧
    ¬ countInit (calculate_witness demoGuest [] true ()).1 = 1 :=
  ⟨by decide, by decide⟩

/-- C8 (amended): each successful `calculate_witness` call invokes the guest's `init`
entry exactly twice, each time passing the `sanity_check` flag as the integer
`if sanity_check then 1 else 0`, and both invocations precede every other guest call
(in particular every input-signal write and set). -/
theorem C8_init_twice_before_inputs {σ : Type} (g : Guest σ)
    (inputs : List (List Nat × List Int)) (sanity_check : Bool) (s : σ)
    (tr : List Event) (s' : σ) (w : List Int)
    (h : calculate_witness g inputs sanity_check s = (tr, s', Except.ok w)) :
    ∃ rest, tr = Event.init (if sanity_check then 1 else 0) ::
        Event.init (if sanity_check then 1 else 0) :: rest ∧ countInit rest = 0 := by
  rcases hg1 : g.init (if sanity_check then 1 else 0) s with ⟨s1, r1⟩
  simp only [calculate_witness, Wasm.init, hg1] at h
  cases r1 with
  | error e => simp at h
  | ok u1 =>
    rcases hc : calculate_witness_circom2 g inputs sanity_check s1 with ⟨tr2, s2, r2⟩
    simp only [hc] at h
    cases r2 with
    | error e => simp at h
    | ok w2 =>
      cases h
      rcases hg2 : g.init (if sanity_check then 1 else 0) s1 with ⟨s3, r3⟩
      simp only [calculate_witness_circom2, Wasm.init, hg2] at hc
      cases r3 with
      | error e => simp at hc
      | ok u3 =>
        rcases hg3 : g.getFieldNumLen32 s3 with ⟨s4, r4⟩
        simp only [Wasm.get_field_num_len32, hg3] at hc
        cases r4 with
        | error e => simp at hc
        | ok n32 =>
          rcases hload : loadInputs g n32 inputs s4 with ⟨trL, s5, r5⟩
          simp only [hload] at hc
          cases r5 with
          | error e => simp at hc
          | ok u5 =>
            rcases hg4 : g.getWitnessSize s5 with ⟨s6, r6⟩
            simp only [Wasm.get_witness_size, hg4] at hc
            cases r6 with
            | error e => simp at hc
            | ok ws =>
              rcases hext : extractWitness g n32 (List.range ws) s6 with ⟨trE, s7, r7⟩
              simp only [hext] at hc
              cases r7 with
              | error e => simp at hc
              | ok wE =>
                cases hc
                obtain ⟨-, hevE⟩ := extractWitness_ok g n32 _ _ _ _ _ hext
                refine ⟨Event.getFieldNumLen32 n32 :: (trL ++
                    Event.getWitnessSize ws :: trE), ?_, ?_⟩
                · simp
                · rw [countInit, List.countP_eq_zero]
                  intro e he
                  simp only [List.mem_cons, List.mem_append] at he
                  rcases he with rfl | (hm | rfl | hm)
                  · simp [isInitEv]
                  · rw [inputEv_not_init e (loadInputs_ok_events g n32 _ _ _ _ hload e hm)]
                    simp
                  · simp [isInitEv]
                  · rw [extractEv_not_init e (hevE e hm)]
                    simp

/-- Witness for the amended C8: the demo-guest run. -/
theorem C8_witness :
    ∃ rest,
      ([Event.init 1, Event.init 1, Event.getFieldNumLen32 1, Event.getWitnessSize 2,
        Event.getWitness 0, Event.readShared 0 5, Event.getWitness 1,
        Event.readShared 0 5] : List Event) =
        Event.init 1 :: Event.init 1 :: rest ∧ countInit rest = 0 :=
  C8_init_twice_before_inputs demoGuest [] true ()
    [Event.init 1, Event.init 1, Event.getFieldNumLen32 1, Event.getWitnessSize 2,
      Event.getWitness 0, Event.readShared 0 5, Event.getWitness 1, Event.readShared 0 5]
    () [5, 5] (by decide)

/-- C9: field normalization — a negative raw witness value `w` produces the element
built from `modulus - |w|`, a non-negative value passes through unchanged (reduced by
the field constructor), and an already-canonical `0 ≤ w < p` maps to itself. -/
theorem C9_field_normalization (p : Nat) (w : Int) :
    (w < 0 → w.natAbs ≤ p →
      normalizeWitnessElement p w = some ((p - w.natAbs) % p)) ∧
    (0 ≤ w → normalizeWitnessElement p w = some (w.toNat % p)) ∧
    (0 ≤ w → w < (p : Int) → normalizeWitnessElement p w = some w.toNat) := by
  refine ⟨fun h1 h2 => ?_, fun h1 => ?_, fun h1 h2 => ?_⟩
  · rw [normalizeWitnessElement, if_pos h1, if_pos h2]
  · rw [normalizeWitnessElement, if_neg (by omega)]
  · rw [normalizeWitnessElement, if_neg (by omega)]
    have hlt : w.toNat % p = w.toNat := Nat.mod_eq_of_lt (by omega)
    rw [hlt]

/-- Witness for C9 at `p = 101`: the flagged-negative `-5` yields `96`, and the
canonical `96` maps to itself. -/
theorem C9_witness :
    normalizeWitnessElement 101 (-5) = some 96 ∧
    normalizeWitnessElement 101 96 = some 96 :=
  ⟨(C9_field_normalization 101 (-5)).1 (by norm_num) (by decide),
   (C9_field_normalization 101 96).2.2 (by norm_num) (by norm_num)⟩

/-- C10: frame property — `calculate_witness` never changes the calculator's `n64` or
`circom_version` fields, whether the run succeeds or fails; only the guest instance
state is driven. -/
theorem C10_frame_n64_version {σ : Type} (g : Guest σ) (wc : WitnessCalculator σ)
    (inputs : List (List Nat × List Int)) (sanity_check : Bool) :
    (WitnessCalculator.calc g wc inputs sanity_check).2.1.n64 = wc.n64 ∧
    (WitnessCalculator.calc g wc inputs sanity_check).2.1.circom_version =
      wc.circom_version := by
  rcases h : calculate_witness g inputs sanity_check wc.inst with ⟨tr, s', r⟩
  simp [WitnessCalculator.calc, h]

end CircomWasm3
